import Mathlib

/-
Verification of the polling/retry engine ("Repeat") and UI page-object
helpers of this repository, as a shallow embedding in Lean 4.

The Repeat engine ships in this repository only as a TypeScript
declaration file (src/out/conditions/Repeat.d.ts); its implementation
is not part of the source tree here.  The definitions below that carry
a doc comment starting with "Modelled from the spec:" therefore embed
the engine from the design document (sections 3, 4.1-4.4, 7), keeping
the declared names and signatures of Repeat.d.ts.

The Marketplace facade (src/unnamed/part_000) and the Menu facade
(src/src/components/Menu.ts) are embedded directly from their sources.

Conventions of the embedding:
 - JavaScript time (Date.now()) is an explicit natural-number argument.
 - A poll function is embedded as the sequence of outcomes of its
   successive invocations (invocation i yields poll i); JS truthiness of
   an opaque value is carried alongside the value as a Boolean.
 - Promise rejection is a constructor of RepeatOutcome; the error class
   RepeatUnsuccessfulException corresponds to RepeatOutcome.unsuccessful
   and carries the configured message.
 - The possibly endless loop is run with explicit fuel; a result of
   (outcome, n) records the settled outcome together with the number of
   poll-function invocations performed.
-/

namespace UITests

/-- Error kinds (the ErrorType of src/out/utils/Errors, whose source is not in
the tree) are embedded as plain strings naming the error class. -/
abbrev ErrorType := String

/-- Loop status of an explicit loop result, from src/out/conditions/Repeat.d.ts
(LoopStatus: LOOP_DONE = 0, LOOP_UNDONE = 1). -/
inductive LoopStatus where
  | LOOP_DONE
  | LOOP_UNDONE
deriving DecidableEq, Repr

/-- Structured poll-function result, from src/out/conditions/Repeat.d.ts
(RepeatLoopResult: value?, loopStatus, delay?). -/
structure RepeatLoopResult (T : Type) where
  value : Option T := none
  loopStatus : LoopStatus
  delay : Option Nat := none
deriving DecidableEq, Repr

/-- Options of a repeat task, from src/out/conditions/Repeat.d.ts
(RepeatArguments).  A function-valued message is embedded as its resolved
string. -/
structure RepeatArguments where
  ignoreErrors : List ErrorType := []
  timeout : Option Nat := none
  threshold : Option Nat := none
  message : Option String := none
  id : Option String := none
  ignoreLoopError : Bool := false
deriving DecidableEq, Repr

/-- Settled outcome of a repeat task.  `resolved none` is resolution with
undefined; `rejected e` is rejection with an error of kind e;
`unsuccessful m` is rejection with RepeatUnsuccessfulException carrying
message m. -/
inductive RepeatOutcome (T : Type) where
  | resolved (v : Option T)
  | rejected (e : ErrorType)
  | unsuccessful (message : Option String)
deriving DecidableEq, Repr

/-- One invocation of the poll function: a plain value together with its JS
truthiness, an explicit RepeatLoopResult, or a thrown / rejected error. -/
inductive PollResult (T : Type) where
  | val (v : Option T) (truthy : Bool)
  | loopRes (r : RepeatLoopResult T)
  | err (e : ErrorType)
deriving DecidableEq, Repr

/-- Classification of a poll invocation, spec section 3 and 4.2 step 3:
an error, or a pair (done, value) where done is the explicit LOOP_DONE
status or, in implicit mode, the truthiness of the plain value. -/
def classify {T : Type} : PollResult T → ErrorType ⊕ (Bool × Option T)
  | .val v truthy => .inr (truthy, v)
  | .loopRes r => .inr (decide (r.loopStatus = .LOOP_DONE), r.value)
  | .err e => .inl e

/-- Modelled from the spec: the Threshold class (declared in
src/out/conditions/Repeat.d.ts, implementation not in the tree).  Spec
section 3: it holds an interval (ms), a start timestamp (0 = not armed)
and a resetCounter. -/
structure Threshold where
  start : Nat
  interval : Nat
  resetCounter : Nat
deriving DecidableEq, Repr

/-- Modelled from the spec: the Threshold constructor.  A fresh threshold
for a given interval is not armed (start = 0) and has counted no resets. -/
def Threshold.new (interval : Nat) : Threshold :=
  { start := 0, interval := interval, resetCounter := 0 }

/-- Modelled from the spec: reset() re-arms start to now and increments the
counter (spec section 3). -/
def Threshold.reset (t : Threshold) (now : Nat) : Threshold :=
  { t with start := now, resetCounter := t.resetCounter + 1 }

/-- Modelled from the spec: hasFinished() is true once now - start >= interval
and the timer is armed (spec section 3). -/
def Threshold.hasFinished (t : Threshold) (now : Nat) : Bool :=
  decide (t.start ≠ 0 ∧ t.interval ≤ now - t.start)

/-- Modelled from the spec: resetCount exposes how many times stability was
broken (spec section 4.1, diagnostic only). -/
def Threshold.resetCount (t : Threshold) : Nat :=
  t.resetCounter

/-- Modelled from the spec: step 1 of the per-iteration algorithm (spec
section 4.2): a finite positive timeout has been exceeded by the elapsed
wall-clock time. -/
def timedOut : Option Nat → Nat → Bool
  | none, _ => false
  | some tmo, elapsed => decide (0 < tmo) && decide (tmo < elapsed)

/-- Modelled from the spec: the single-shot miss outcome (spec section 4.2
step 5): resolve with undefined when ignoreLoopError is set, otherwise
reject with an unsuccessful-repeat failure carrying the message. -/
def missOutcome {T : Type} (opts : RepeatArguments) : RepeatOutcome T :=
  if opts.ignoreLoopError then .resolved none else .unsuccessful opts.message

/-- Result of one iteration of the engine: either the task settles with an
outcome (recording the total number of poll invocations so far), or the
loop continues with the next iteration index, the condition reading of
this iteration, and the threshold tracker. -/
inductive StepResult (T : Type) where
  | settled (o : RepeatOutcome T) (invocations : Nat)
  | next (i : Nat) (prevTrue : Bool) (thr : Threshold)
deriving DecidableEq, Repr

/-- Modelled from the spec: one iteration of the Repeat engine (spec section
4.2, steps 1-7).  Iteration i runs at wall-clock time `times i` and the
task started at `times 0`.
1. If a finite positive timeout is exceeded, fail with the
   unsuccessful-repeat failure without invoking the poll function.
2. Invoke the poll function; a thrown error of a kind listed in
   ignoreErrors is treated as a falsy result, any other error rejects the
   task immediately.
3-4. A candidate done result finalizes immediately when no threshold is
   configured; with a threshold, reset() is called on a false-to-true
   transition (or on first true) and the task finalizes only once
   hasFinished() is true.
5. With timeout = 0 the task runs exactly one iteration: a miss resolves
   with undefined under ignoreLoopError and otherwise rejects with the
   unsuccessful-repeat failure. -/
def stepOnce {T : Type} (opts : RepeatArguments) (poll : Nat → PollResult T)
    (times : Nat → Nat) (i : Nat) (prevTrue : Bool) (thr : Threshold) :
    StepResult T :=
  if timedOut opts.timeout (times i - times 0) then
    .settled (.unsuccessful opts.message) i
  else
    match classify (poll i) with
    | .inl e =>
      if opts.ignoreErrors.contains e then
        if opts.timeout = some 0 then .settled (missOutcome opts) (i + 1)
        else .next (i + 1) false thr
      else .settled (.rejected e) (i + 1)
    | .inr (done, v) =>
      if done then
        match opts.threshold with
        | none => .settled (.resolved v) (i + 1)
        | some _ =>
          let thr' := if prevTrue then thr else thr.reset (times i)
          if thr'.hasFinished (times i) then .settled (.resolved v) (i + 1)
          else if opts.timeout = some 0 then .settled (missOutcome opts) (i + 1)
          else .next (i + 1) true thr'
      else
        if opts.timeout = some 0 then .settled (missOutcome opts) (i + 1)
        else .next (i + 1) false thr

/-- Modelled from the spec: the driving loop of the Repeat engine (spec
section 4.2), run with explicit fuel.  `none` means the fuel ran out with
the task still in flight; `some (o, n)` means the task settled with
outcome o after n poll-function invocations in total. -/
def runFrom {T : Type} (opts : RepeatArguments) (poll : Nat → PollResult T)
    (times : Nat → Nat) :
    Nat → Nat → Bool → Threshold → Option (RepeatOutcome T × Nat)
  | 0, _, _, _ => none
  | fuel + 1, i, prevTrue, thr =>
    match stepOnce opts poll times i prevTrue thr with
    | .settled o n => some (o, n)
    | .next i' prevTrue' thr' => runFrom opts poll times fuel i' prevTrue' thr'

/-- Modelled from the spec: a Repeat task as constructed by
new Repeat(func, options) (declared in src/out/conditions/Repeat.d.ts). -/
structure Repeat (T : Type) where
  func : Nat → PollResult T
  options : RepeatArguments

/-- Modelled from the spec: Repeat.execute() starts the loop from iteration
0 with the condition not yet read true and a fresh threshold tracker for
the configured interval (spec section 4.2). -/
def Repeat.execute {T : Type} (r : Repeat T) (times : Nat → Nat) (fuel : Nat) :
    Option (RepeatOutcome T × Nat) :=
  runFrom r.options r.func times fuel 0 false (Threshold.new (r.options.threshold.getD 0))

/-- Modelled from the spec: the repeat() convenience function wraps
construction and execute() (spec section 4.4). -/
def repeatF {T : Type} (func : Nat → PollResult T) (options : RepeatArguments)
    (times : Nat → Nat) (fuel : Nat) : Option (RepeatOutcome T × Nat) :=
  (Repeat.mk func options).execute times fuel

/-- Kind of the internal exit signal used for abort (RepeatExitError,
declared in src/out/conditions/Repeat.d.ts). -/
def RepeatExitErrorKind : ErrorType := "RepeatExitError"

/-- Argument of Repeat.abort (src/out/conditions/Repeat.d.ts): an Error, a
non-undefined value of the task's type, or undefined. -/
inductive AbortValue (T : Type) where
  | error (e : ErrorType)
  | value (v : T)
  | undef
deriving DecidableEq, Repr

/-- Modelled from the spec: the outcome forced by abort(value) (spec section
4.2): resolve with the value when it is not an Error, reject with the
error when it is one, and reject with the internal exit signal on
undefined-with-intent-to-cancel. -/
def abortOutcome {T : Type} : AbortValue T → RepeatOutcome T
  | .error e => .rejected e
  | .value v => .resolved (some v)
  | .undef => .rejected RepeatExitErrorKind

/-- Modelled from the spec: the mutable state of one in-flight Repeat task
(spec section 3): the settlement of its promise (none while in flight),
the loop bookkeeping driven by stepOnce, and the hasStarted lifecycle
flag. -/
structure RepeatTask (T : Type) where
  settled : Option (RepeatOutcome T) := none
  iter : Nat := 0
  prevTrue : Bool := false
  thr : Threshold := Threshold.new 0
  hasStarted : Bool := false
deriving DecidableEq, Repr

/-- Modelled from the spec: a scheduled iteration firing (spec sections 4.2
and 5).  The scheduled callback is a no-op once the task has settled;
otherwise it runs one iteration, which either settles the promise or
advances the loop bookkeeping. -/
def RepeatTask.step {T : Type} (opts : RepeatArguments) (poll : Nat → PollResult T)
    (times : Nat → Nat) (t : RepeatTask T) : RepeatTask T :=
  match t.settled with
  | some _ => t
  | none =>
    match stepOnce opts poll times t.iter t.prevTrue t.thr with
    | .settled o _ => { t with settled := some o }
    | .next i pt thr => { t with iter := i, prevTrue := pt, thr := thr }

/-- Modelled from the spec: abort(value) forcibly settles the task's promise
(spec section 4.2); settling an already settled promise is a no-op. -/
def RepeatTask.abort {T : Type} (t : RepeatTask T) (v : AbortValue T) : RepeatTask T :=
  match t.settled with
  | some _ => t
  | none => { t with settled := some (abortOutcome v) }

/-- Modelled from the spec: one entry of the RepeatManager view of the
world: a task together with its current registry membership (spec
sections 3 and 4.3). -/
structure ManagedTask (T : Type) where
  task : RepeatTask T
  registered : Bool
deriving DecidableEq, Repr

/-- Modelled from the spec: the RepeatManager membership invariant (spec
section 3): an instance is a member exactly while it has started running
and its promise is unsettled. -/
def managerInv {T : Type} (s : List (ManagedTask T)) : Prop :=
  ∀ mt ∈ s, mt.registered = (mt.task.hasStarted && mt.task.settled.isNone)

/-- Modelled from the spec: a task begins running (spec section 4.3):
registration happens when a task begins running. -/
def startTask {T : Type} (mt : ManagedTask T) : ManagedTask T :=
  if mt.task.settled.isNone then
    { task := { mt.task with hasStarted := true }, registered := true }
  else mt

/-- Modelled from the spec: a task settles through the normal loop and runs
cleanup() exactly once, which removes it from the manager (spec sections
4.2 and 4.3). -/
def settleTask {T : Type} (o : RepeatOutcome T) (mt : ManagedTask T) : ManagedTask T :=
  if mt.task.settled.isNone then
    { task := { mt.task with settled := some o }, registered := false }
  else mt

/-- Modelled from the spec: aborting a managed task settles its promise and
triggers cleanup(), which removes it from the manager (spec sections 4.2
and 4.3). -/
def abortTask {T : Type} (v : AbortValue T) (mt : ManagedTask T) : ManagedTask T :=
  { task := mt.task.abort v, registered := false }

/-- Modelled from the spec: RepeatManager.abortAll() calls abort() on every
currently registered task (spec section 4.3). -/
def abortAll {T : Type} (v : AbortValue T) (s : List (ManagedTask T)) :
    List (ManagedTask T) :=
  s.map (fun mt => if mt.registered then abortTask v mt else mt)

/-- Modelled from the spec: RepeatManager.size, the number of currently
registered tasks (spec section 4.3). -/
def managerSize {T : Type} (s : List (ManagedTask T)) : Nat :=
  (s.filter (fun mt => mt.registered)).length

/-
The Marketplace facade, embedded from src/unnamed/part_000.  The
browser-automation layer is abstracted as an environment mapping a
section name to the result of getContent().getSection(name): a section
value, or a thrown error (Except.error with its message).
-/

/-- Extension section categories, from src/unnamed/part_000 line 10
(EXTENSION_CATEGORIES). -/
def EXTENSION_CATEGORIES : List String :=
  ["Disabled", "Enabled", "Installed", "Outdated", "Other Recommendations",
   "Marketplace", "Popular"]

/-- Environment of a Marketplace instance: the behaviour of the side bar's
getContent().getSection for each section name, with S the opaque type of
ExtensionsViewSection. -/
structure MarketplaceEnv (S : Type) where
  getSection : String → Except String S

namespace Marketplace

/-- Marketplace.getExtensionsSection, from src/unnamed/part_000 lines 25-27:
delegates to the side bar content's getSection. -/
def getExtensionsSection {S : Type} (env : MarketplaceEnv S) (sec : String) :
    Except String S :=
  env.getSection sec

/-- Failure message of getAnyExtensionSection, from src/unnamed/part_000
line 38. -/
def failMessage : String :=
  "Could not find any of following sections: " ++
    String.intercalate (", ") EXTENSION_CATEGORIES

/-- The category loop of Marketplace.getAnyExtensionSection, from
src/unnamed/part_000 lines 30-38: return the first lookup that does not
throw, swallow every throwing lookup, and throw the aggregate failure
after the last category. -/
def getAnyAux {S : Type} (env : MarketplaceEnv S) : List String → Except String S
  | [] => .error failMessage
  | c :: rest =>
    match getExtensionsSection env c with
    | .ok s => .ok s
    | .error _ => getAnyAux env rest

/-- Marketplace.getAnyExtensionSection, from src/unnamed/part_000 lines
29-39. -/
def getAnyExtensionSection {S : Type} (env : MarketplaceEnv S) : Except String S :=
  getAnyAux env EXTENSION_CATEGORIES

end Marketplace

/-
The Menu facade, embedded from src/src/components/Menu.ts.  The
filesystem is abstracted as a stat oracle; the UI side effects of a call
are recorded as a trace of actions, and a thrown error is recorded
alongside the (then empty) trace.
-/

/-- Shape of a filesystem entry as observed by fs.existsSync / fs.statSync:
missing, a regular file, a directory, or something else. -/
inductive FsEntry where
  | missing
  | file
  | directory
  | other
deriving DecidableEq, Repr

/-- Filesystem oracle used by Menu.openFolder / Menu.openFile. -/
structure FileSystem where
  stat : String → FsEntry

/-- fs.existsSync, over the stat oracle. -/
def FileSystem.existsSync (fs : FileSystem) (p : String) : Bool :=
  fs.stat p != .missing

/-- fs.statSync(p).isDirectory(), over the stat oracle. -/
def FileSystem.isDirectory (fs : FileSystem) (p : String) : Bool :=
  fs.stat p == .directory

/-- fs.statSync(p).isFile(), over the stat oracle. -/
def FileSystem.isFile (fs : FileSystem) (p : String) : Bool :=
  fs.stat p == .file

/-- UI interactions performed by Menu.openFolder / Menu.openFile, from
src/src/components/Menu.ts lines 41-71 and 85-98. -/
inductive UIAction where
  | titleBarSelect (menu : String) (item : String)
  | inputTypeAndConfirm (text : String)
  | openFolderWait (basename : String)
  | waitInputHidden
  | waitForWorkbench
  | dialogOpenFolder (p : String)
  | dialogOpenFile (p : String)
deriving DecidableEq, Repr

/-- Open file/folder method, from src/src/components/Menu.ts lines 7-9
(enum OpenMethod: DIALOG = 0, INPUT = 1). -/
inductive OpenMethod where
  | DIALOG
  | INPUT
deriving DecidableEq, Repr

/-- Options of Menu.openFolder / Menu.openFile, from
src/src/components/Menu.ts lines 11-20. -/
structure OpenMenuOptions where
  timeout : Option Nat := none
  openMethod : Option OpenMethod := none
deriving DecidableEq, Repr

/-- path.basename over POSIX separators: the last component of the path. -/
def basename (p : String) : String :=
  (p.splitOn ("/")).getLastD p

/-- The JS expression options?.timeout || 30000: an absent options object,
an absent field and a falsy (zero) timeout all fall back to the
default. -/
def jsOrTimeout (t : Option Nat) (d : Nat) : Nat :=
  match t with
  | some v => if v = 0 then d else v
  | none => d

/-- The JS expression options?.openMethod || Menu.defaultOpenMethod: the
enum value DIALOG is 0 and hence falsy, so only an explicit INPUT
overrides the default. -/
def jsOrMethod (m : Option OpenMethod) (d : OpenMethod) : OpenMethod :=
  match m with
  | some .INPUT => .INPUT
  | some .DIALOG => d
  | none => d

/-- Error message of Menu.openFolder for a missing path, from
src/src/components/Menu.ts line 32. -/
def folderNotExistMsg (p : String) : String :=
  "Folder \"" ++ p ++ "\" does not exist."

/-- Error message of Menu.openFolder for a non-directory path, from
src/src/components/Menu.ts line 36. -/
def notFolderMsg (p : String) : String :=
  "\"" ++ p ++ "\" is not folder."

/-- Error message of Menu.openFile for a missing path, from
src/src/components/Menu.ts line 76. -/
def fileNotExistMsg (p : String) : String :=
  "File \"" ++ p ++ "\" does not exist."

/-- Error message of Menu.openFile for a non-file path, from
src/src/components/Menu.ts line 80. -/
def notFileMsg (p : String) : String :=
  "\"" ++ p ++ "\" is not file."

namespace Menu

/-- Menu.openFolder, from src/src/components/Menu.ts lines 30-72: check
existsSync and isDirectory before any UI interaction, then select
File > Open Folder... in the title bar and drive the configured open
method.  The result is the trace of UI actions together with the thrown
error, if any; dm is the mutable static Menu.defaultOpenMethod. -/
def openFolder (fs : FileSystem) (dm : OpenMethod) (folderPath : String)
    (options : Option OpenMenuOptions) : List UIAction × Option String :=
  if !fs.existsSync folderPath then
    ([], some (folderNotExistMsg folderPath))
  else if !fs.isDirectory folderPath then
    ([], some (notFolderMsg folderPath))
  else
    let method := jsOrMethod (options.bind (fun o => o.openMethod)) dm
    match method with
    | .INPUT =>
      ([.titleBarSelect ("File") ("Open Folder..."),
        .inputTypeAndConfirm folderPath,
        .openFolderWait (basename folderPath),
        .waitInputHidden,
        .waitForWorkbench], none)
    | .DIALOG =>
      ([.titleBarSelect ("File") ("Open Folder..."),
        .dialogOpenFolder folderPath], none)

/-- Menu.openFile, from src/src/components/Menu.ts lines 74-99: check
existsSync and isFile before any UI interaction, then select
File > Open File... in the title bar and drive the configured open
method. -/
def openFile (fs : FileSystem) (dm : OpenMethod) (filePath : String)
    (options : Option OpenMenuOptions) : List UIAction × Option String :=
  if !fs.existsSync filePath then
    ([], some (fileNotExistMsg filePath))
  else if !fs.isFile filePath then
    ([], some (notFileMsg filePath))
  else
    let method := jsOrMethod (options.bind (fun o => o.openMethod)) dm
    match method with
    | .INPUT =>
      ([.titleBarSelect ("File") ("Open File..."),
        .inputTypeAndConfirm filePath], none)
    | .DIALOG =>
      ([.titleBarSelect ("File") ("Open File..."),
        .dialogOpenFile filePath], none)

end Menu

/-
Concrete instances used by the witness theorems below.
-/

/-- A wall clock where iteration i runs at time i + 1 (so the task never
starts at JS timestamp 0). -/
def timesLin : Nat → Nat := fun i => i + 1

/-- A poll function that always returns a falsy plain value. -/
def pollAlwaysFalse : Nat → PollResult Nat := fun _ => .val none false

/-- Single-shot options without ignoreLoopError. -/
def optsSingleShot : RepeatArguments := { timeout := some 0, message := some ("timed out") }

/-- Single-shot options with ignoreLoopError set. -/
def optsSingleShotIgnore : RepeatArguments := { timeout := some 0, ignoreLoopError := true }

/-- Options with no timeout and no threshold (loop forever). -/
def optsForever : RepeatArguments := {}

/-- A poll function that is truthy exactly on its third invocation. -/
def pollTrueThird : Nat → PollResult Nat :=
  fun i => if i = 2 then .val (some 7) true else .val none false

/-- Options configuring a 2 ms stability threshold and no timeout. -/
def optsThreshold : RepeatArguments := { threshold := some 2 }

/-- A condition reading that is true on invocation 0, false again on
invocation 1, and true permanently from invocation 2 on (two
false-to-true transitions, the spec's flip scenario). -/
def readsFlip : Nat → Bool := fun j => decide (j ≠ 1)

/-- A plain-value poll function whose truthiness follows readsFlip. -/
def pollFlip : Nat → PollResult Nat := fun i => .val (some 1) (readsFlip i)

/-- Options ignoring errors of kind E. -/
def optsIgnoreE : RepeatArguments := { ignoreErrors := ["E"] }

/-- A poll function that throws kind E on even invocations and is truthy on
odd invocations. -/
def pollErrThenTrue : Nat → PollResult Nat :=
  fun i => if i % 2 = 0 then .err ("E") else .val (some 5) true

/-- An in-flight task that has already run three iterations. -/
def taskW : RepeatTask Nat := { iter := 3, hasStarted := true }

/-- A registry with one in-flight registered task and one settled
deregistered task. -/
def managerW : List (ManagedTask Nat) :=
  [{ task := { hasStarted := true }, registered := true },
   { task := { settled := some (.resolved (some 3)), hasStarted := true }, registered := false }]

/-- A marketplace environment where only the Installed section lookup
succeeds. -/
def envW : MarketplaceEnv Nat :=
  ⟨fun c => if c = "Installed" then .ok 7 else .error ("nope")⟩

/-- A filesystem with one directory and one regular file. -/
def fsW : FileSystem :=
  ⟨fun q => if q = "/w/dir" then .directory else if q = "/w/f.txt" then .file else .missing⟩

/-
Theorems.
-/

/-- C4: for every Threshold constructed with interval I: reset() sets start
to the current time and increments resetCounter by one; hasFinished()
returns true exactly when the timer is armed (start not 0) and
now - start ≥ I; and hasFinished() stays false at any check made while
less than I milliseconds have elapsed since the most recent reset()
(checks do not mutate the state, so the state at such a check is the
state produced by that reset). -/
theorem threshold_contract (I : Nat) :
    ((Threshold.new I).start = 0 ∧ (Threshold.new I).interval = I ∧
      (Threshold.new I).resetCounter = 0) ∧
    (∀ t : Threshold, ∀ now,
      (t.reset now).start = now ∧ (t.reset now).resetCounter = t.resetCounter + 1 ∧
      (t.reset now).interval = t.interval) ∧
    (∀ t : Threshold, t.interval = I →
      ∀ now, t.hasFinished now = true ↔ (t.start ≠ 0 ∧ I ≤ now - t.start)) ∧
    (∀ t : Threshold, t.interval = I →
      ∀ rt now, now - rt < I → (t.reset rt).hasFinished now = false) := by
  refine ⟨⟨rfl, rfl, rfl⟩, fun t now => ⟨rfl, rfl, rfl⟩,
    fun t hI now => ?_, fun t hI rt now h => ?_⟩
  · simp [Threshold.hasFinished, hI]
  · simp only [Threshold.hasFinished, Threshold.reset, hI]
    simp only [decide_eq_false_iff_not, not_and]
    intro _
    omega

/-- Witness for threshold_contract: interval 5, a reset at time 100 and a
check at time 103 (3 ms later). -/
theorem threshold_contract_witness :
    ((Threshold.new 5).reset 100).start = 100 ∧
    ((Threshold.new 5).reset 100).hasFinished 103 = false :=
  ⟨((threshold_contract 5).2.1 (Threshold.new 5) 100).1,
   (threshold_contract 5).2.2.2 (Threshold.new 5) rfl 100 103 (by decide)⟩

/-- C1: with timeout = 0 and a poll function whose first invocation returns
a falsy plain value, the engine invokes the poll function exactly once
(the invocation count of the settled result is 1) and then rejects with
the unsuccessful-repeat failure (RepeatUnsuccessfulException carrying the
configured message) when ignoreLoopError is unset, and resolves to
undefined when ignoreLoopError is set. -/
theorem single_shot_behavior {T : Type} (opts : RepeatArguments)
    (poll : Nat → PollResult T) (times : Nat → Nat) (u : Option T)
    (thr : Threshold) (fuel : Nat)
    (hto : opts.timeout = some 0) (hp : poll 0 = .val u false) (hfuel : 1 ≤ fuel) :
    (opts.ignoreLoopError = false →
      runFrom opts poll times fuel 0 false thr = some (.unsuccessful opts.message, 1)) ∧
    (opts.ignoreLoopError = true →
      runFrom opts poll times fuel 0 false thr = some (.resolved none, 1)) := by
  obtain ⟨f, rfl⟩ : ∃ f, fuel = f + 1 := ⟨fuel - 1, by omega⟩
  have hs : stepOnce opts poll times 0 false thr = .settled (missOutcome opts) 1 := by
    simp [stepOnce, hp, classify, hto, timedOut]
  constructor <;> intro hig <;>
    simp [runFrom, hs, missOutcome, hig]

/-- Witness for single_shot_behavior in both ignoreLoopError modes. -/
theorem single_shot_behavior_witness :
    runFrom optsSingleShot pollAlwaysFalse timesLin 1 0 false (Threshold.new 0) =
      some (.unsuccessful (some ("timed out")), 1) ∧
    runFrom optsSingleShotIgnore pollAlwaysFalse timesLin 1 0 false (Threshold.new 0) =
      some (.resolved none, 1) :=
  ⟨(single_shot_behavior optsSingleShot pollAlwaysFalse timesLin none
      (Threshold.new 0) 1 rfl rfl (by decide)).1 rfl,
   (single_shot_behavior optsSingleShotIgnore pollAlwaysFalse timesLin none
      (Threshold.new 0) 1 rfl rfl (by decide)).2 rfl⟩

/-- C8: the repeat() convenience function yields the same settled outcome as
constructing a Repeat and calling execute(). -/
theorem repeat_equiv_execute {T : Type} (func : Nat → PollResult T)
    (options : RepeatArguments) (times : Nat → Nat) (fuel : Nat) :
    repeatF func options times fuel = (Repeat.mk func options).execute times fuel := rfl

/-- C10: Menu.openFolder throws (with no menu interaction) when the path does
not exist or is not a directory, Menu.openFile throws (with no menu
interaction) when the path does not exist or is not a regular file, and
when the checks pass no error is thrown and the first UI interaction is
the TitleBar File menu selection. -/
theorem menu_open_path_checks (fs : FileSystem) (dm : OpenMethod) (p : String)
    (options : Option OpenMenuOptions) :
    (fs.stat p = .missing →
      Menu.openFolder fs dm p options = ([], some (folderNotExistMsg p))) ∧
    (fs.stat p ≠ .missing → fs.stat p ≠ .directory →
      Menu.openFolder fs dm p options = ([], some (notFolderMsg p))) ∧
    (fs.stat p = .directory →
      (Menu.openFolder fs dm p options).2 = none ∧
      (Menu.openFolder fs dm p options).1.head? =
        some (.titleBarSelect ("File") ("Open Folder..."))) ∧
    (fs.stat p = .missing →
      Menu.openFile fs dm p options = ([], some (fileNotExistMsg p))) ∧
    (fs.stat p ≠ .missing → fs.stat p ≠ .file →
      Menu.openFile fs dm p options = ([], some (notFileMsg p))) ∧
    (fs.stat p = .file →
      (Menu.openFile fs dm p options).2 = none ∧
      (Menu.openFile fs dm p options).1.head? =
        some (.titleBarSelect ("File") ("Open File..."))) := by
  refine ⟨fun h => ?_, fun h1 h2 => ?_, fun h => ?_, fun h => ?_, fun h1 h2 => ?_, fun h => ?_⟩
  · simp [Menu.openFolder, FileSystem.existsSync, h]
  · simp [Menu.openFolder, FileSystem.existsSync, FileSystem.isDirectory, h1, h2]
  · have he : fs.existsSync p = true := by
      simp [FileSystem.existsSync, h]
    have hd : fs.isDirectory p = true := by
      simp [FileSystem.isDirectory, h]
    cases hm : jsOrMethod (options.bind (fun o => o.openMethod)) dm <;>
      simp [Menu.openFolder, he, hd, hm]
  · simp [Menu.openFile, FileSystem.existsSync, h]
  · simp [Menu.openFile, FileSystem.existsSync, FileSystem.isFile, h1, h2]
  · have he : fs.existsSync p = true := by
      simp [FileSystem.existsSync, h]
    have hf : fs.isFile p = true := by
      simp [FileSystem.isFile, h]
    cases hm : jsOrMethod (options.bind (fun o => o.openMethod)) dm <;>
      simp [Menu.openFile, he, hf, hm]

/-- Shape of one engine iteration on a plain-value poll invocation with no
timeout configured.  Helper for the loop theorems. -/
lemma stepOnce_val {T : Type} (opts : RepeatArguments) (poll : Nat → PollResult T)
    (times : Nat → Nat) (i : Nat) (pt : Bool) (thr : Threshold) (u : Option T) (b : Bool)
    (hto : opts.timeout = none) (hp : poll i = .val u b) :
    stepOnce opts poll times i pt thr =
      (if b then
        (match opts.threshold with
         | none => StepResult.settled (.resolved u) (i + 1)
         | some _ =>
           let thr' := if pt then thr else thr.reset (times i)
           if thr'.hasFinished (times i) then StepResult.settled (.resolved u) (i + 1)
           else StepResult.next (i + 1) true thr')
      else StepResult.next (i + 1) false thr) := by
  simp only [stepOnce, hp, classify, hto, timedOut]
  simp

/-- Unfolding of the loop when an iteration settles.  Helper for the loop
theorems. -/
lemma runFrom_succ_settled {T : Type} (opts : RepeatArguments)
    (poll : Nat → PollResult T) (times : Nat → Nat) (f i : Nat) (pt : Bool)
    (thr : Threshold) (o : RepeatOutcome T) (n : Nat)
    (hs : stepOnce opts poll times i pt thr = .settled o n) :
    runFrom opts poll times (f + 1) i pt thr = some (o, n) := by
  rw [runFrom, hs]

/-- Unfolding of the loop when an iteration continues.  Helper for the loop
theorems. -/
lemma runFrom_succ_next {T : Type} (opts : RepeatArguments)
    (poll : Nat → PollResult T) (times : Nat → Nat) (f i : Nat) (pt : Bool)
    (thr : Threshold) (i' : Nat) (pt' : Bool) (thr' : Threshold)
    (hs : stepOnce opts poll times i pt thr = .next i' pt' thr') :
    runFrom opts poll times (f + 1) i pt thr = runFrom opts poll times f i' pt' thr' := by
  rw [runFrom, hs]

/-- With no timeout configured an iteration either rejects with an error,
resolves with a value, or continues with the next index.  Helper for the
loop theorems. -/
lemma stepOnce_cases {T : Type} (opts : RepeatArguments)
    (poll : Nat → PollResult T) (times : Nat → Nat) (i : Nat) (pt : Bool)
    (thr : Threshold) (hto : opts.timeout = none) :
    (∃ e, stepOnce opts poll times i pt thr = .settled (.rejected e) (i + 1)) ∨
    (∃ v, stepOnce opts poll times i pt thr = .settled (.resolved v) (i + 1)) ∨
    (∃ pt' thr', stepOnce opts poll times i pt thr = .next (i + 1) pt' thr') := by
  rcases hc : classify (poll i) with e | ⟨done, v⟩
  · by_cases hig : e ∈ opts.ignoreErrors
    · right; right
      exact ⟨false, thr, by rw [stepOnce, hto]; simp [timedOut, hc, hig]⟩
    · left
      exact ⟨e, by rw [stepOnce, hto]; simp [timedOut, hc, hig]⟩
  · cases done with
    | false =>
      right; right
      exact ⟨false, thr, by rw [stepOnce, hto]; simp [timedOut, hc]⟩
    | true =>
      cases hth : opts.threshold with
      | none =>
        right; left
        exact ⟨v, by rw [stepOnce, hto]; simp [timedOut, hc, hth]⟩
      | some D =>
        by_cases hfin : (if pt then thr else thr.reset (times i)).hasFinished (times i) = true
        · right; left
          exact ⟨v, by rw [stepOnce, hto]; simp [timedOut, hc, hth, hfin]⟩
        · right; right
          refine ⟨true, if pt then thr else thr.reset (times i), ?_⟩
          rw [stepOnce, hto]
          simp [timedOut, hc, hth, hfin]

/-- A run with no timeout configured never settles with the
unsuccessful-repeat failure in one step.  Helper for the loop theorems. -/
lemma stepOnce_no_unsuccessful {T : Type} {opts : RepeatArguments}
    (poll : Nat → PollResult T) (times : Nat → Nat) (i : Nat) (pt : Bool)
    (thr : Threshold) (m : Option String) (n : Nat)
    (hto : opts.timeout = none) :
    stepOnce opts poll times i pt thr ≠ .settled (.unsuccessful m) n := by
  intro h
  rcases stepOnce_cases opts poll times i pt thr hto with ⟨e, hs⟩ | ⟨v, hs⟩ | ⟨pt', thr', hs⟩ <;>
    rw [hs] at h <;> simp at h

/-- No run with no timeout configured rejects with the unsuccessful-repeat
failure.  Helper for the loop theorems. -/
lemma run_no_unsuccessful {T : Type} {opts : RepeatArguments}
    (poll : Nat → PollResult T) (times : Nat → Nat)
    (hto : opts.timeout = none) :
    ∀ fuel i pt thr m n,
      runFrom opts poll times fuel i pt thr ≠ some (.unsuccessful m, n) := by
  intro fuel
  induction fuel with
  | zero =>
    intro i pt thr m n h
    simp [runFrom] at h
  | succ f ih =>
    intro i pt thr m n h
    rw [runFrom] at h
    cases hs : stepOnce opts poll times i pt thr with
    | settled o k =>
      rw [hs] at h
      simp at h
      obtain ⟨ho, _⟩ := h
      rw [ho] at hs
      exact stepOnce_no_unsuccessful poll times i pt thr m k hto hs
    | next i' pt' thr' =>
      rw [hs] at h
      exact ih i' pt' thr' m n h

/-- As long as the poll function keeps returning falsy plain values, the
untimed unthresholded loop keeps going; the first truthy plain value
resolves the task.  Helper for the loop theorems. -/
lemma run_falsy_then_done {T : Type} (opts : RepeatArguments)
    (poll : Nat → PollResult T) (times : Nat → Nat) (v : T)
    (hto : opts.timeout = none) (hth : opts.threshold = none) :
    ∀ (d i : Nat) (pt : Bool) (thr : Threshold) (fuel : Nat),
      (∀ j, j < d → ∃ u, poll (i + j) = .val u false) →
      poll (i + d) = .val (some v) true → d + 1 ≤ fuel →
      runFrom opts poll times fuel i pt thr = some (.resolved (some v), i + d + 1) := by
  intro d
  induction d with
  | zero =>
    intro i pt thr fuel _ hdone hfuel
    obtain ⟨f, rfl⟩ : ∃ f, fuel = f + 1 := ⟨fuel - 1, by omega⟩
    have hs : stepOnce opts poll times i pt thr = .settled (.resolved (some v)) (i + 1) := by
      have hv := stepOnce_val opts poll times i pt thr (some v) true hto
        (by simpa using hdone)
      rw [hth] at hv
      simpa using hv
    rw [runFrom_succ_settled opts poll times f i pt thr _ _ hs]
  | succ d ih =>
    intro i pt thr fuel hfalsy hdone hfuel
    obtain ⟨f, rfl⟩ : ∃ f, fuel = f + 1 := ⟨fuel - 1, by omega⟩
    obtain ⟨u, hu⟩ := hfalsy 0 (by omega)
    have hs : stepOnce opts poll times i pt thr = .next (i + 1) false thr := by
      have hv := stepOnce_val opts poll times i pt thr u false hto
        (by simpa using hu)
      simpa using hv
    rw [runFrom_succ_next opts poll times f i pt thr (i + 1) false thr hs]
    have hres := ih (i + 1) false thr f
      (fun j hj => by
        obtain ⟨u', hu'⟩ := hfalsy (j + 1) (by omega)
        exact ⟨u', by rw [show i + 1 + j = i + (j + 1) by omega]; exact hu'⟩)
      (by rw [show i + 1 + d = i + (d + 1) by omega]; exact hdone)
      (by omega)
    rw [show i + 1 + d + 1 = i + (d + 1) + 1 by omega] at hres
    exact hres

/-- C2: with timeout = undefined and a poll function that returns a truthy
value on its Nth invocation and falsy plain values before, the engine
resolves with that truthy value after exactly N poll invocations, and no
run of the engine in this configuration can settle with the
timeout-derived unsuccessful-repeat failure. -/
theorem undefined_timeout_resolves_after_n {T : Type} (N : Nat)
    (opts : RepeatArguments) (poll : Nat → PollResult T) (times : Nat → Nat)
    (v : T) (thr : Threshold) (fuel : Nat)
    (hN : 1 ≤ N) (hto : opts.timeout = none) (hth : opts.threshold = none)
    (hfalsy : ∀ i, i < N - 1 → ∃ u, poll i = .val u false)
    (hdone : poll (N - 1) = .val (some v) true)
    (hfuel : N ≤ fuel) :
    runFrom opts poll times fuel 0 false thr = some (.resolved (some v), N) ∧
    (∀ fuel' i pt thr' m n,
      runFrom opts poll times fuel' i pt thr' ≠ some (.unsuccessful m, n)) := by
  constructor
  · have := run_falsy_then_done opts poll times v hto hth (N - 1) 0 false thr fuel
      (fun j hj => by simpa using hfalsy j hj)
      (by simpa using hdone)
      (by omega)
    rw [this]
    congr 2
    omega
  · exact fun fuel' i pt thr' m n => run_no_unsuccessful poll times hto fuel' i pt thr' m n

/-- Witness for undefined_timeout_resolves_after_n: a poll function truthy
exactly on its third invocation resolves to 7 after exactly 3
invocations. -/
theorem undefined_timeout_resolves_after_n_witness :
    runFrom optsForever pollTrueThird timesLin 5 0 false (Threshold.new 0) =
      some (.resolved (some 7), 3) :=
  (undefined_timeout_resolves_after_n 3 optsForever pollTrueThird timesLin 7
    (Threshold.new 0) 5 (by decide) rfl rfl
    (by
      intro i hi
      exact ⟨none, by
        have : i = 0 ∨ i = 1 := by omega
        rcases this with h | h <;> subst h <;> rfl⟩)
    rfl (by decide)).1

/-- Threshold-mode iteration on a falsy reading: the loop continues with the
condition marked false and the tracker untouched.  Helper for the
threshold theorems. -/
lemma stepOnce_thr_false {T : Type} (opts : RepeatArguments)
    (poll : Nat → PollResult T) (times : Nat → Nat) (reads : Nat → Bool)
    (w : Nat → Option T)
    (hto : opts.timeout = none)
    (hpoll : ∀ j, poll j = .val (w j) (reads j))
    (i : Nat) (pt : Bool) (thr : Threshold) (hr : reads i = false) :
    stepOnce opts poll times i pt thr = .next (i + 1) false thr := by
  have hv := stepOnce_val opts poll times i pt thr (w i) (reads i) hto (hpoll i)
  rw [hr] at hv
  simpa using hv

/-- Threshold-mode iteration on a truthy reading whose stability window has
elapsed: the task resolves.  Helper for the threshold theorems. -/
lemma stepOnce_thr_true_fin {T : Type} (opts : RepeatArguments)
    (poll : Nat → PollResult T) (times : Nat → Nat) (reads : Nat → Bool)
    (w : Nat → Option T) (D : Nat)
    (hto : opts.timeout = none) (hth : opts.threshold = some D)
    (hpoll : ∀ j, poll j = .val (w j) (reads j))
    (i : Nat) (pt : Bool) (thr : Threshold) (hr : reads i = true)
    (hfin : (if pt then thr else thr.reset (times i)).hasFinished (times i) = true) :
    stepOnce opts poll times i pt thr = .settled (.resolved (w i)) (i + 1) := by
  have hv := stepOnce_val opts poll times i pt thr (w i) (reads i) hto (hpoll i)
  rw [hr, hth] at hv
  simpa [hfin] using hv

/-- Threshold-mode iteration on a truthy reading whose stability window has
not yet elapsed: the loop continues with the condition marked true and
the tracker re-armed on a false-to-true transition.  Helper for the
threshold theorems. -/
lemma stepOnce_thr_true_nofin {T : Type} (opts : RepeatArguments)
    (poll : Nat → PollResult T) (times : Nat → Nat) (reads : Nat → Bool)
    (w : Nat → Option T) (D : Nat)
    (hto : opts.timeout = none) (hth : opts.threshold = some D)
    (hpoll : ∀ j, poll j = .val (w j) (reads j))
    (i : Nat) (pt : Bool) (thr : Threshold) (hr : reads i = true)
    (hfin : (if pt then thr else thr.reset (times i)).hasFinished (times i) = false) :
    stepOnce opts poll times i pt thr =
      .next (i + 1) true (if pt then thr else thr.reset (times i)) := by
  have hv := stepOnce_val opts poll times i pt thr (w i) (reads i) hto (hpoll i)
  rw [hr, hth] at hv
  simpa [hfin] using hv

/-- Safety of the threshold mechanism: whenever a threshold-mode run
resolves, the readings were continuously true from the last
false-to-true transition through the resolving iteration, and at least
the configured interval of wall-clock time elapsed between that
transition and the resolving iteration.  Helper for the threshold
theorems. -/
lemma threshold_safety_aux {T : Type} (opts : RepeatArguments)
    (poll : Nat → PollResult T) (times : Nat → Nat) (reads : Nat → Bool)
    (w : Nat → Option T) (D : Nat)
    (hto : opts.timeout = none) (hth : opts.threshold = some D)
    (hpoll : ∀ j, poll j = .val (w j) (reads j)) :
    ∀ (fuel : Nat), ∀ (i : Nat) (pt : Bool) (thr : Threshold) (v : Option T) (n : Nat),
      thr.interval = D →
      (pt = true → 1 ≤ i ∧ reads (i - 1) = true ∧
        ∃ k, k ≤ i - 1 ∧ thr.start = times k ∧
          (∀ j, k ≤ j → j ≤ i - 1 → reads j = true) ∧
          (k = 0 ∨ reads (k - 1) = false)) →
      (pt = false → i = 0 ∨ reads (i - 1) = false) →
      runFrom opts poll times fuel i pt thr = some (.resolved v, n) →
      i < n ∧ ∃ k, k ≤ n - 1 ∧
        (∀ j, k ≤ j → j ≤ n - 1 → reads j = true) ∧
        (k = 0 ∨ reads (k - 1) = false) ∧ times k ≠ 0 ∧ D ≤ times (n - 1) - times k := by
  intro fuel
  induction fuel with
  | zero =>
    intro i pt thr v n _ _ _ hrun
    simp [runFrom] at hrun
  | succ f ih =>
    intro i pt thr v n hint hptT hptF hrun
    by_cases hr : reads i = true
    · cases pt with
      | true =>
        obtain ⟨hi1, hprev, k, hk, hstart, hwin, htr⟩ := hptT rfl
        by_cases hfin : thr.hasFinished (times i) = true
        · have hs := stepOnce_thr_true_fin opts poll times reads w D hto hth hpoll
            i true thr hr (by simpa using hfin)
          rw [runFrom_succ_settled opts poll times f i true thr _ _ hs] at hrun
          simp only [Option.some.injEq, Prod.mk.injEq, RepeatOutcome.resolved.injEq] at hrun
          obtain ⟨hv, hn⟩ := hrun
          have hfin' : thr.start ≠ 0 ∧ thr.interval ≤ times i - thr.start := by
            rw [Threshold.hasFinished] at hfin
            exact of_decide_eq_true hfin
          refine ⟨by omega, k, by omega, ?_, htr, ?_, ?_⟩
          · intro j hkj hji
            rcases Nat.lt_or_ge j i with hj | hj
            · exact hwin j hkj (by omega)
            · have : j = i := by omega
              subst this
              exact hr
          · rw [← hstart]
            exact hfin'.1
          · have : n - 1 = i := by omega
            rw [this, ← hstart, ← hint]
            exact hfin'.2
        · have hs := stepOnce_thr_true_nofin opts poll times reads w D hto hth hpoll
            i true thr hr (by simpa using (by simpa using hfin : ¬thr.hasFinished (times i) = true))
          simp only [if_true] at hs
          rw [runFrom_succ_next opts poll times f i true thr (i + 1) true thr hs] at hrun
          have hres := ih (i + 1) true thr v n hint
            (by
              intro _
              refine ⟨by omega, by simpa using hr, k, by omega, hstart, ?_, htr⟩
              intro j hkj hji
              rcases Nat.lt_or_ge j i with hj | hj
              · exact hwin j hkj (by omega)
              · have : j = i := by omega
                subst this
                exact hr)
            (by intro h; simp at h)
            hrun
          exact ⟨by omega, hres.2⟩
      | false =>
        have htr := hptF rfl
        by_cases hfin : (thr.reset (times i)).hasFinished (times i) = true
        · have hs := stepOnce_thr_true_fin opts poll times reads w D hto hth hpoll
            i false thr hr (by simpa using hfin)
          rw [runFrom_succ_settled opts poll times f i false thr _ _ hs] at hrun
          simp only [Option.some.injEq, Prod.mk.injEq, RepeatOutcome.resolved.injEq] at hrun
          obtain ⟨hv, hn⟩ := hrun
          have hfin' : (thr.reset (times i)).start ≠ 0 ∧
              (thr.reset (times i)).interval ≤ times i - (thr.reset (times i)).start := by
            rw [Threshold.hasFinished] at hfin
            exact of_decide_eq_true hfin
          refine ⟨by omega, i, by omega, ?_, htr, hfin'.1, ?_⟩
          · intro j hij hji
            have : j = i := by omega
            subst this
            exact hr
          · have : n - 1 = i := by omega
            rw [this]
            have h2 := hfin'.2
            rw [show (thr.reset (times i)).interval = D from hint] at h2
            exact h2
        · have hs := stepOnce_thr_true_nofin opts poll times reads w D hto hth hpoll
            i false thr hr (by simpa using (by simpa using hfin : ¬(thr.reset (times i)).hasFinished (times i) = true))
          simp only [if_false] at hs
          rw [runFrom_succ_next opts poll times f i false thr (i + 1) true
            (thr.reset (times i)) hs] at hrun
          have hres := ih (i + 1) true (thr.reset (times i)) v n
            (by rw [Threshold.reset]; exact hint)
            (by
              intro _
              refine ⟨by omega, by simpa using hr, i, by omega, rfl, ?_, htr⟩
              intro j hij hji
              have : j = i := by omega
              subst this
              exact hr)
            (by intro h; simp at h)
            hrun
          exact ⟨by omega, hres.2⟩
    · have hr' : reads i = false := by simpa using hr
      have hs := stepOnce_thr_false opts poll times reads w hto hpoll i pt thr hr'
      rw [runFrom_succ_next opts poll times f i pt thr (i + 1) false thr hs] at hrun
      have hres := ih (i + 1) false thr v n hint
        (by intro h; simp at h)
        (fun _ => Or.inr (by simpa using hr'))
        hrun
      exact ⟨by omega, hres.2⟩

/-- Over any prefix of readings a threshold-mode run either resolves within
the prefix or reaches the end of the prefix with the prior-reading flag
equal to the last reading and a tracker with the configured interval.
Helper for the threshold theorems. -/
lemma threshold_advance {T : Type} (opts : RepeatArguments)
    (poll : Nat → PollResult T) (times : Nat → Nat) (reads : Nat → Bool)
    (w : Nat → Option T) (D : Nat)
    (hto : opts.timeout = none) (hth : opts.threshold = some D)
    (hpoll : ∀ j, poll j = .val (w j) (reads j)) :
    ∀ (d : Nat), ∀ (i : Nat) (pt : Bool) (thr : Threshold) (fuel : Nat),
      thr.interval = D → d ≤ fuel →
      (∃ n v, n ≤ i + d ∧
        runFrom opts poll times fuel i pt thr = some (.resolved v, n)) ∨
      (∃ pt' thr', thr'.interval = D ∧
        (d = 0 → pt' = pt ∧ thr' = thr) ∧
        (1 ≤ d → pt' = reads (i + d - 1)) ∧
        runFrom opts poll times fuel i pt thr =
          runFrom opts poll times (fuel - d) (i + d) pt' thr') := by
  intro d
  induction d with
  | zero =>
    intro i pt thr fuel hint _
    right
    exact ⟨pt, thr, hint, fun _ => ⟨rfl, rfl⟩, fun h => absurd h (by omega), by simp⟩
  | succ d ih =>
    intro i pt thr fuel hint hfuel
    obtain ⟨f, rfl⟩ : ∃ f, fuel = f + 1 := ⟨fuel - 1, by omega⟩
    by_cases hr : reads i = true
    · by_cases hfin : (if pt then thr else thr.reset (times i)).hasFinished (times i) = true
      · left
        refine ⟨i + 1, w i, by omega, ?_⟩
        exact runFrom_succ_settled opts poll times f i pt thr _ _
          (stepOnce_thr_true_fin opts poll times reads w D hto hth hpoll i pt thr hr hfin)
      · have hs := stepOnce_thr_true_nofin opts poll times reads w D hto hth hpoll
          i pt thr hr (by simpa using hfin)
        have hint' : (if pt then thr else thr.reset (times i)).interval = D := by
          cases pt <;> simp [Threshold.reset, hint]
        have hstep := runFrom_succ_next opts poll times f i pt thr (i + 1) true
          (if pt then thr else thr.reset (times i)) hs
        rcases ih (i + 1) true (if pt then thr else thr.reset (times i)) f hint'
          (by omega) with ⟨n, v, hn, heq⟩ | ⟨pt', thr', hint'', h0, h1, heq⟩
        · left
          exact ⟨n, v, by omega, by rw [hstep]; exact heq⟩
        · right
          refine ⟨pt', thr', hint'', fun h => absurd h (by omega), ?_, ?_⟩
          · intro _
            rcases Nat.eq_zero_or_pos d with hd | hd
            · subst hd
              rw [(h0 rfl).1, Nat.add_sub_cancel]
              exact hr.symm
            · rw [show i + (d + 1) - 1 = i + 1 + d - 1 from by omega]
              exact h1 hd
          · rw [hstep, heq, show f + 1 - (d + 1) = f - d from by omega,
              show i + (d + 1) = i + 1 + d from by omega]
    · have hr' : reads i = false := by simpa using hr
      have hs := stepOnce_thr_false opts poll times reads w hto hpoll i pt thr hr'
      have hstep := runFrom_succ_next opts poll times f i pt thr (i + 1) false thr hs
      rcases ih (i + 1) false thr f hint (by omega) with
        ⟨n, v, hn, heq⟩ | ⟨pt', thr', hint'', h0, h1, heq⟩
      · left
        exact ⟨n, v, by omega, by rw [hstep]; exact heq⟩
      · right
        refine ⟨pt', thr', hint'', fun h => absurd h (by omega), ?_, ?_⟩
        · intro _
          rcases Nat.eq_zero_or_pos d with hd | hd
          · subst hd
            rw [(h0 rfl).1, Nat.add_sub_cancel]
            exact hr'.symm
          · rw [show i + (d + 1) - 1 = i + 1 + d - 1 from by omega]
            exact h1 hd
        · rw [hstep, heq, show f + 1 - (d + 1) = f - d from by omega,
            show i + (d + 1) = i + 1 + d from by omega]

/-- Once the condition reads true permanently and the tracker is armed at
the transition time, the run resolves no later than the first iteration
at which the configured interval has elapsed.  Helper for the threshold
theorems. -/
lemma threshold_true_run {T : Type} (opts : RepeatArguments)
    (poll : Nat → PollResult T) (times : Nat → Nat) (reads : Nat → Bool)
    (w : Nat → Option T) (D k m : Nat)
    (hto : opts.timeout = none) (hth : opts.threshold = some D)
    (hpoll : ∀ j, poll j = .val (w j) (reads j))
    (hall : ∀ j, k ≤ j → reads j = true)
    (hk0 : times k ≠ 0) (hkm : D ≤ times m - times k) :
    ∀ (fuel : Nat), ∀ (j : Nat) (thr' : Threshold), k < j → j ≤ m →
      m + 1 - j ≤ fuel → thr'.start = times k → thr'.interval = D →
      ∃ n v, n ≤ m + 1 ∧
        runFrom opts poll times fuel j true thr' = some (.resolved v, n) := by
  intro fuel
  induction fuel with
  | zero =>
    intro j thr' hkj hjm hf _ _
    omega
  | succ f ih =>
    intro j thr' hkj hjm hf hstart hint
    have hrj : reads j = true := hall j (by omega)
    by_cases hfin : thr'.hasFinished (times j) = true
    · refine ⟨j + 1, w j, by omega, ?_⟩
      exact runFrom_succ_settled opts poll times f j true thr' _ _
        (stepOnce_thr_true_fin opts poll times reads w D hto hth hpoll
          j true thr' hrj (by simpa using hfin))
    · have hjm' : j < m := by
        rcases Nat.lt_or_ge j m with h | h
        · exact h
        · exfalso
          apply hfin
          have : j = m := by omega
          subst this
          rw [Threshold.hasFinished, hstart, hint]
          exact decide_eq_true ⟨hk0, hkm⟩
      have hs := stepOnce_thr_true_nofin opts poll times reads w D hto hth hpoll
        j true thr' hrj (by simpa using (by simpa using hfin : ¬thr'.hasFinished (times j) = true))
      simp only [if_true] at hs
      rw [runFrom_succ_next opts poll times f j true thr' (j + 1) true thr' hs]
      exact ih (j + 1) thr' (by omega) (by omega) (by omega) hstart hint

/-- C3: with a threshold of D milliseconds configured (and no outer timeout),
a run over plain condition readings resolves only if the readings were
continuously true from the last false-to-true transition through the
resolving iteration and at least D milliseconds of wall-clock time
elapsed between that transition (where the tracker was re-armed by
Threshold.reset) and the resolving iteration; and whenever the condition
transitions from false to true at invocation k (after arbitrary earlier
readings, including earlier broken true windows) and stays true from
then on, the run does resolve no later than the first iteration m at
which D milliseconds have elapsed since that transition. -/
theorem threshold_stability {T : Type} (opts : RepeatArguments)
    (poll : Nat → PollResult T) (times : Nat → Nat) (reads : Nat → Bool)
    (w : Nat → Option T) (D : Nat)
    (hto : opts.timeout = none) (hth : opts.threshold = some D)
    (hpoll : ∀ j, poll j = .val (w j) (reads j)) :
    (∀ (fuel : Nat) (v : Option T) (n : Nat),
      runFrom opts poll times fuel 0 false (Threshold.new D) = some (.resolved v, n) →
      1 ≤ n ∧ ∃ k, k ≤ n - 1 ∧
        (∀ j, k ≤ j → j ≤ n - 1 → reads j = true) ∧
        (k = 0 ∨ reads (k - 1) = false) ∧ times k ≠ 0 ∧
        D ≤ times (n - 1) - times k) ∧
    (∀ (k m fuel : Nat),
      (k = 0 ∨ reads (k - 1) = false) → (∀ j, k ≤ j → reads j = true) →
      times k ≠ 0 → k ≤ m → D ≤ times m - times k → m + 1 ≤ fuel →
      ∃ n v, n ≤ m + 1 ∧
        runFrom opts poll times fuel 0 false (Threshold.new D) =
          some (.resolved v, n)) := by
  constructor
  · intro fuel v n hrun
    have hres := threshold_safety_aux opts poll times reads w D hto hth hpoll fuel
      0 false (Threshold.new D) v n rfl (by intro h; simp at h) (fun _ => Or.inl rfl) hrun
    exact ⟨by omega, hres.2⟩
  · intro k m fuel hk hall hk0 hkm hDm hfuel
    rcases threshold_advance opts poll times reads w D hto hth hpoll k 0 false
      (Threshold.new D) fuel rfl (by omega) with
      ⟨n, v, hn, heq⟩ | ⟨pt', thr', hint', h0, h1, heq⟩
    · exact ⟨n, v, by omega, heq⟩
    · rw [Nat.zero_add] at heq
      have hpt' : pt' = false := by
        rcases Nat.eq_zero_or_pos k with hkz | hk1
        · subst hkz
          exact (h0 rfl).1
        · rw [h1 hk1, Nat.zero_add]
          rcases hk with h | h
          · omega
          · exact h
      rw [heq, hpt']
      obtain ⟨g, hg⟩ : ∃ g, fuel - k = g + 1 := ⟨fuel - k - 1, by omega⟩
      rw [hg]
      have hrk : reads k = true := hall k (le_refl k)
      have hstart : (thr'.reset (times k)).start = times k := rfl
      have hintR : (thr'.reset (times k)).interval = D := hint'
      by_cases hfin : (thr'.reset (times k)).hasFinished (times k) = true
      · refine ⟨k + 1, w k, by omega, ?_⟩
        exact runFrom_succ_settled opts poll times g k false thr' _ _
          (stepOnce_thr_true_fin opts poll times reads w D hto hth hpoll
            k false thr' hrk (by simpa using hfin))
      · have hkm' : k < m := by
          rcases Nat.lt_or_ge k m with h | h
          · exact h
          · exfalso
            apply hfin
            have hkm2 : k = m := by omega
            subst hkm2
            rw [Threshold.hasFinished, hstart, hintR]
            exact decide_eq_true ⟨hk0, hDm⟩
        have hs := stepOnce_thr_true_nofin opts poll times reads w D hto hth hpoll
          k false thr' hrk
          (by simpa using (by simpa using hfin :
            ¬(thr'.reset (times k)).hasFinished (times k) = true))
        simp only [if_false] at hs
        rw [runFrom_succ_next opts poll times g k false thr' (k + 1) true
          (thr'.reset (times k)) hs]
        exact threshold_true_run opts poll times reads w D k m hto hth hpoll hall hk0 hDm
          g (k + 1) (thr'.reset (times k)) (by omega) (by omega) (by omega)
          hstart hintR

/-- Witness for threshold_stability: threshold 2 ms, condition true on
invocation 0, false again on invocation 1 and true permanently from
invocation 2 (the spec's flip scenario, last transition at time 3),
clock times i + 1; the run resolves by invocation 5 (time 5, 2 ms after
the last transition). -/
theorem threshold_stability_witness :
    ∃ n v, n ≤ 5 ∧
      runFrom optsThreshold pollFlip timesLin 6 0 false (Threshold.new 2) =
        some (.resolved v, n) :=
  (threshold_stability optsThreshold pollFlip timesLin readsFlip
    (fun _ => some 1) 2 rfl rfl (fun j => rfl)).2 2 4 6
    (Or.inr rfl)
    (fun j hj => by
      simp only [readsFlip]
      exact decide_eq_true (by omega))
    (by decide) (by decide) (by decide) (by decide)

/-- Two poll functions whose iterations step identically produce identical
runs.  Helper for the error-filtering theorem. -/
lemma runFrom_congr {T : Type} (opts : RepeatArguments)
    (poll poll' : Nat → PollResult T) (times : Nat → Nat)
    (h : ∀ k pt thr, stepOnce opts poll times k pt thr = stepOnce opts poll' times k pt thr) :
    ∀ fuel i pt thr,
      runFrom opts poll times fuel i pt thr = runFrom opts poll' times fuel i pt thr := by
  intro fuel
  induction fuel with
  | zero => intro i pt thr; rfl
  | succ f ih =>
    intro i pt thr
    rw [runFrom, runFrom, h i pt thr]
    cases hs : stepOnce opts poll' times i pt thr with
    | settled o n => rfl
    | next i' pt' thr' => exact ih i' pt' thr'

/-- An iteration that throws an ignored error kind steps exactly like an
iteration returning a falsy plain value.  Helper for the error-filtering
theorem. -/
lemma stepOnce_ignored_err_eq_falsy {T : Type} (opts : RepeatArguments)
    (poll poll' : Nat → PollResult T) (times : Nat → Nat) (i : Nat)
    (pt : Bool) (thr : Threshold) (e : ErrorType)
    (hp : poll i = .err e) (hig : opts.ignoreErrors.contains e = true)
    (hp' : poll' i = .val none false) :
    stepOnce opts poll times i pt thr = stepOnce opts poll' times i pt thr := by
  have hig' : e ∈ opts.ignoreErrors := by simpa using hig
  rw [stepOnce, stepOnce, hp, hp']
  simp [classify, hig']

/-- C5: an iteration in which the poll function throws an error whose kind
is listed in ignoreErrors behaves exactly as an iteration returning a
falsy result (so the loop continues as it would on a falsy reading),
while an error whose kind is not listed rejects the task immediately with
that error, with no further poll invocation (the settled invocation count
is i + 1). -/
theorem error_filtering {T : Type} (opts : RepeatArguments)
    (poll poll' : Nat → PollResult T) (times : Nat → Nat) (i : Nat) (e : ErrorType)
    (hp : poll i = .err e) :
    (opts.ignoreErrors.contains e = true → poll' i = .val none false →
      (∀ j, j ≠ i → poll' j = poll j) →
      ∀ fuel k pt thr,
        runFrom opts poll times fuel k pt thr = runFrom opts poll' times fuel k pt thr) ∧
    (opts.ignoreErrors.contains e = false →
      timedOut opts.timeout (times i - times 0) = false →
      ∀ fuel pt thr,
        runFrom opts poll times (fuel + 1) i pt thr = some (.rejected e, i + 1)) := by
  constructor
  · intro hig hp' hsame fuel k pt thr
    refine runFrom_congr opts poll poll' times (fun k' pt' thr' => ?_) fuel k pt thr
    by_cases hk : k' = i
    · subst hk
      exact stepOnce_ignored_err_eq_falsy opts poll poll' times k' pt' thr' e hp hig hp'
    · rw [stepOnce, stepOnce, hsame k' hk]
  · intro hig hnt fuel pt thr
    have hig' : e ∉ opts.ignoreErrors := by simpa using hig
    have hs : stepOnce opts poll times i pt thr = .settled (.rejected e) (i + 1) := by
      rw [stepOnce, hp]
      simp [classify, hig', hnt]
    exact runFrom_succ_settled opts poll times fuel i pt thr _ _ hs

/-- Witness for error_filtering: with ignoreErrors = [E] and a poll function
that throws E on even invocations and is truthy on odd ones, the run
equals the run of the falsified poll function; with ignoreErrors empty
the first invocation rejects with E. -/
theorem error_filtering_witness :
    runFrom optsForever pollErrThenTrue timesLin 1 0 false (Threshold.new 0) =
      some (.rejected ("E"), 1) :=
  (error_filtering optsForever pollErrThenTrue
    (fun j => if j = 0 then .val none false else pollErrThenTrue j)
    timesLin 0 ("E") rfl).2 rfl rfl 0 false (Threshold.new 0)

/-- The category loop returns the first non-throwing lookup.  Helper for the
Marketplace theorems. -/
lemma getAnyAux_first {S : Type} (env : MarketplaceEnv S) :
    ∀ (pre : List String) (c : String) (post : List String) (s : S),
      (∀ x ∈ pre, ∃ m, Marketplace.getExtensionsSection env x = .error m) →
      Marketplace.getExtensionsSection env c = .ok s →
      Marketplace.getAnyAux env (pre ++ c :: post) = .ok s := by
  intro pre
  induction pre with
  | nil =>
    intro c post s _ hc
    simp [Marketplace.getAnyAux, hc]
  | cons x xs ih =>
    intro c post s hpre hc
    obtain ⟨m, hm⟩ := hpre x (by simp)
    simp only [List.cons_append, Marketplace.getAnyAux, hm]
    exact ih c post s (fun y hy => hpre y (by simp [hy])) hc

/-- The category loop throws the aggregate failure exactly when every lookup
throws.  Helper for the Marketplace theorems. -/
lemma getAnyAux_error_iff {S : Type} (env : MarketplaceEnv S) :
    ∀ l : List String,
      (Marketplace.getAnyAux env l = .error Marketplace.failMessage ↔
        ∀ c ∈ l, ∃ m, Marketplace.getExtensionsSection env c = .error m) := by
  intro l
  induction l with
  | nil => simp [Marketplace.getAnyAux]
  | cons c rest ih =>
    cases hc : Marketplace.getExtensionsSection env c with
    | ok s => simp [Marketplace.getAnyAux, hc]
    | error m => simp [Marketplace.getAnyAux, hc, ih]

/-- The category loop throws only the aggregate failure message.  Helper for
the Marketplace theorems. -/
lemma getAnyAux_error_msg {S : Type} (env : MarketplaceEnv S) :
    ∀ l m, Marketplace.getAnyAux env l = .error m → m = Marketplace.failMessage := by
  intro l
  induction l with
  | nil =>
    intro m h
    simp [Marketplace.getAnyAux] at h
    exact h.symm
  | cons c rest ih =>
    intro m h
    cases hc : Marketplace.getExtensionsSection env c with
    | ok s => simp [Marketplace.getAnyAux, hc] at h
    | error m' =>
      simp only [Marketplace.getAnyAux, hc] at h
      exact ih m h

/-- C9: getAnyExtensionSection probes the section categories in the fixed
order Disabled, Enabled, Installed, Outdated, Other Recommendations,
Marketplace, Popular; the result is the section of the first
getExtensionsSection call that does not throw, and it throws the error
naming all seven categories if and only if every one of the seven lookups
throws. -/
theorem getAnyExtensionSection_spec {S : Type} (env : MarketplaceEnv S) :
    EXTENSION_CATEGORIES =
      ["Disabled", "Enabled", "Installed", "Outdated", "Other Recommendations",
       "Marketplace", "Popular"] ∧
    (∀ (pre : List String) (c : String) (post : List String) (s : S),
      EXTENSION_CATEGORIES = pre ++ c :: post →
      (∀ x ∈ pre, ∃ m, Marketplace.getExtensionsSection env x = .error m) →
      Marketplace.getExtensionsSection env c = .ok s →
      Marketplace.getAnyExtensionSection env = .ok s) ∧
    (∀ m, Marketplace.getAnyExtensionSection env = .error m →
      m = Marketplace.failMessage) ∧
    (Marketplace.getAnyExtensionSection env = .error Marketplace.failMessage ↔
      ∀ c ∈ EXTENSION_CATEGORIES,
        ∃ m, Marketplace.getExtensionsSection env c = .error m) ∧
    Marketplace.failMessage =
      "Could not find any of following sections: Disabled, Enabled, Installed, Outdated, Other Recommendations, Marketplace, Popular" := by
  refine ⟨rfl, fun pre c post s hsplit hpre hc => ?_,
    fun m h => getAnyAux_error_msg env _ m h, getAnyAux_error_iff env _, by rfl⟩
  unfold Marketplace.getAnyExtensionSection
  rw [hsplit]
  exact getAnyAux_first env pre c post s hpre hc

/-- Witness for getAnyExtensionSection_spec: an environment where the
Disabled and Enabled lookups throw and Installed succeeds. -/
theorem getAnyExtensionSection_spec_witness :
    Marketplace.getAnyExtensionSection envW = .ok 7 :=
  (getAnyExtensionSection_spec envW).2.1 (["Disabled", "Enabled"]) ("Installed")
    (["Outdated", "Other Recommendations", "Marketplace", "Popular"]) 7 rfl
    (by
      intro x hx
      fin_cases hx <;> exact ⟨("nope"), rfl⟩)
    rfl

/-- A scheduled iteration is a no-op on a settled task.  Helper for the
abort theorems. -/
lemma step_of_settled {T : Type} (opts : RepeatArguments) (poll : Nat → PollResult T)
    (times : Nat → Nat) (t : RepeatTask T) (o : RepeatOutcome T)
    (h : t.settled = some o) : RepeatTask.step opts poll times t = t := by
  unfold RepeatTask.step
  rw [h]

/-- C6: aborting an in-flight task (however many iterations it has already
run) settles its promise immediately: it resolves with the value when the
value is not an Error, rejects with the error when it is one, rejects
with the internal exit signal on undefined, and no number of
already-scheduled subsequent iterations changes the settled outcome. -/
theorem abort_settles {T : Type} (opts : RepeatArguments) (poll : Nat → PollResult T)
    (times : Nat → Nat) (t : RepeatTask T) (v : AbortValue T)
    (hun : t.settled = none) :
    (t.abort v).settled = some (abortOutcome v) ∧
    (∀ e, v = .error e → (t.abort v).settled = some (.rejected e)) ∧
    (∀ x, v = .value x → (t.abort v).settled = some (.resolved (some x))) ∧
    (v = .undef → (t.abort v).settled = some (.rejected RepeatExitErrorKind)) ∧
    (∀ n : Nat, ((RepeatTask.step opts poll times)^[n] (t.abort v)).settled =
      some (abortOutcome v)) := by
  have hbase : (t.abort v).settled = some (abortOutcome v) := by
    unfold RepeatTask.abort
    rw [hun]
  have hiter : ∀ n : Nat, (RepeatTask.step opts poll times)^[n] (t.abort v) = t.abort v := by
    intro n
    induction n with
    | zero => rfl
    | succ n ih =>
      rw [Function.iterate_succ_apply', ih,
        step_of_settled opts poll times _ _ hbase]
  refine ⟨hbase, fun e he => ?_, fun x hx => ?_, fun hu => ?_, fun n => by rw [hiter n]; exact hbase⟩
  · subst he
    exact hbase
  · subst hx
    exact hbase
  · subst hu
    exact hbase

/-- Witness for abort_settles: aborting an in-flight task that has already
run three iterations with the non-Error value 9, then firing four more
scheduled iterations. -/
theorem abort_settles_witness :
    (taskW.abort (.value 9)).settled = some (.resolved (some 9)) ∧
    ((RepeatTask.step optsForever pollAlwaysFalse timesLin)^[4]
      (taskW.abort (.value 9))).settled = some (.resolved (some 9)) :=
  ⟨(abort_settles optsForever pollAlwaysFalse timesLin taskW (.value 9) rfl).2.2.1 9 rfl,
   (abort_settles optsForever pollAlwaysFalse timesLin taskW (.value 9) rfl).2.2.2.2 4⟩

/-- Aborting a task always leaves its promise settled.  Helper for the
manager theorems. -/
lemma abort_isSome {T : Type} (t : RepeatTask T) (v : AbortValue T) :
    (t.abort v).settled.isSome = true := by
  unfold RepeatTask.abort
  cases h : t.settled <;> simp [h]

/-- C7: the RepeatManager registry keeps the invariant that a task is a
member exactly while it has started and its promise is unsettled (the
invariant is preserved by task start, by settlement with cleanup, by
abort with cleanup, and by abortAll), and after abortAll() the size is 0
and every previously registered task's promise is settled. -/
theorem manager_registry {T : Type} (v : AbortValue T) (o : RepeatOutcome T)
    (s : List (ManagedTask T)) (hInv : managerInv s) :
    managerInv (abortAll v s) ∧
    managerSize (abortAll v s) = 0 ∧
    (∀ i (h : i < s.length) (h2 : i < (abortAll v s).length),
      s[i].registered = true → ((abortAll v s)[i]).task.settled.isSome = true) ∧
    (∀ mt : ManagedTask T,
      mt.registered = (mt.task.hasStarted && mt.task.settled.isNone) →
      (startTask mt).registered =
        ((startTask mt).task.hasStarted && (startTask mt).task.settled.isNone) ∧
      (settleTask o mt).registered =
        ((settleTask o mt).task.hasStarted && (settleTask o mt).task.settled.isNone) ∧
      (abortTask v mt).registered =
        ((abortTask v mt).task.hasStarted && (abortTask v mt).task.settled.isNone)) := by
  refine ⟨?_, ?_, ?_, ?_⟩
  · intro mt hmt
    rw [abortAll] at hmt
    obtain ⟨mt₀, hmem, rfl⟩ := List.mem_map.1 hmt
    cases hr : mt₀.registered with
    | true =>
      have hsome := abort_isSome mt₀.task v
      simp only [hr, if_true, abortTask]
      cases habort : (mt₀.task.abort v).settled with
      | none => rw [habort] at hsome; simp at hsome
      | some o' => simp [habort]
    | false =>
      simpa [hr] using hInv mt₀ hmem
  · rw [managerSize, List.length_eq_zero, List.filter_eq_nil_iff]
    intro a ha
    rw [abortAll] at ha
    obtain ⟨mt₀, hmem, rfl⟩ := List.mem_map.1 ha
    cases hr : mt₀.registered with
    | true => simp [hr, abortTask]
    | false => simp [hr]
  · intro i h h2 hreg
    have hmap : (abortAll v s)[i] =
        (if s[i].registered then abortTask v s[i] else s[i]) := by
      simp only [abortAll]
      rw [List.getElem_map]
    rw [hmap, hreg]
    simpa using abort_isSome s[i].task v
  · intro mt hmt
    refine ⟨?_, ?_, ?_⟩
    · cases hset : mt.task.settled with
      | none => simp [startTask, hset]
      | some o' =>
        simp only [startTask, hset, Option.isNone_some, if_false]
        exact hmt
    · cases hset : mt.task.settled with
      | none => simp [settleTask, hset]
      | some o' =>
        simp only [settleTask, hset, Option.isNone_some, if_false]
        exact hmt
    · have hsome := abort_isSome mt.task v
      cases habort : (mt.task.abort v).settled with
      | none => rw [habort] at hsome; simp at hsome
      | some o' => simp [abortTask, habort]

/-- Witness for manager_registry: a registry with one in-flight registered
task and one settled deregistered task, aborted with undefined. -/
theorem manager_registry_witness :
    managerInv (abortAll (AbortValue.undef) managerW) ∧
    managerSize (abortAll (AbortValue.undef) managerW) = 0 :=
  ⟨(manager_registry .undef (.resolved none) managerW
      (by unfold managerInv; decide)).1,
   (manager_registry .undef (.resolved none) managerW
      (by unfold managerInv; decide)).2.1⟩

/-- Witness for menu_open_path_checks: a missing path throws before any
interaction, an existing directory passes the checks with the title bar
selection first. -/
theorem menu_open_path_checks_witness :
    Menu.openFolder fsW .DIALOG ("/nope") none = ([], some (folderNotExistMsg ("/nope"))) ∧
    (Menu.openFolder fsW .DIALOG ("/w/dir") none).2 = none ∧
    (Menu.openFile fsW .DIALOG ("/w/dir") none = ([], some (notFileMsg ("/w/dir")))) :=
  ⟨(menu_open_path_checks fsW .DIALOG ("/nope") none).1 (by decide),
   ((menu_open_path_checks fsW .DIALOG ("/w/dir") none).2.2.1 (by decide)).1,
   (menu_open_path_checks fsW .DIALOG ("/w/dir") none).2.2.2.2.1 (by decide) (by decide)⟩

end UITests
